import Mathlib

set_option maxRecDepth 100000

/-!
Verification of the emaildraft-storage core against its specification.

The Rust source is shallowly embedded: byte buffers are `List Nat`,
the relational tables are lists of records, the IMAP mailbox is a list
of `(uid, payload)` pairs with a monotone `nextUid` counter (IMAP UIDs
are never reused), and external-crate digest functions (`md5`, `sha256`
from the `md5`/`sha2` crates, the serde JSON codec) are parameters of
the definitions that use them.
-/

/-! ## storage/chunker.rs -/

/-- Fuel-driven worker for `chunksOf`; `fuel ≥ l.length` suffices,
since every step with a non-zero size consumes at least one element. -/
def chunksOfFuel : Nat → Nat → List Nat → List (List Nat)
  | 0, _, _ => []
  | f + 1, s, l =>
    if l = [] then []
    else if s = 0 then []
    else l.take s :: chunksOfFuel f s (l.drop s)

/-- Model of Rust `slice::chunks(s)` for a positive size `s`:
the list of consecutive sub-slices of length `s`, the last possibly
shorter.  The `s = 0` case (where Rust panics) is handled by the caller
`chunk_data`, which models the panic as `none`. -/
def chunksOf (s : Nat) (l : List Nat) : List (List Nat) :=
  chunksOfFuel l.length s l

theorem chunksOfFuel_nil (f s : Nat) : chunksOfFuel f s [] = [] := by
  cases f <;> rfl

theorem chunksOfFuel_congr (s : Nat) :
    ∀ (f1 f2 : Nat) (l : List Nat), l.length ≤ f1 → l.length ≤ f2 →
      chunksOfFuel f1 s l = chunksOfFuel f2 s l := by
  intro f1
  induction f1 with
  | zero =>
    intro f2 l hl1 hl2
    have hnil : l = [] := by
      cases l with
      | nil => rfl
      | cons x xs => simp at hl1
    subst hnil
    rw [chunksOfFuel_nil, chunksOfFuel_nil]
  | succ g ih =>
    intro f2 l hl1 hl2
    by_cases hc : l = []
    · subst hc
      rw [chunksOfFuel_nil, chunksOfFuel_nil]
    · have hp : 0 < l.length := List.length_pos.mpr hc
      cases f2 with
      | zero => omega
      | succ h =>
        by_cases hs0 : s = 0
        · subst hs0
          rw [chunksOfFuel, chunksOfFuel]
          simp [hc]
        · rw [chunksOfFuel, chunksOfFuel, if_neg hc, if_neg hc,
            if_neg hs0, if_neg hs0]
          congr 1
          have h1 : 1 ≤ s := Nat.one_le_iff_ne_zero.mpr hs0
          refine ih h (l.drop s) ?_ ?_ <;>
            · simp only [List.length_drop]; omega

theorem chunksOf_nil (s : Nat) : chunksOf s [] = [] := rfl

theorem chunksOf_zero (l : List Nat) : chunksOf 0 l = [] := by
  unfold chunksOf
  cases l with
  | nil => rfl
  | cons x xs =>
    simp only [List.length_cons]
    rw [chunksOfFuel]
    simp

theorem chunksOf_cons (s : Nat) (l : List Nat) (hs : s ≠ 0) (hl : l ≠ []) :
    chunksOf s l = l.take s :: chunksOf s (l.drop s) := by
  unfold chunksOf
  have hp : 0 < l.length := List.length_pos.mpr hl
  cases hlen : l.length with
  | zero => omega
  | succ m =>
    rw [chunksOfFuel, if_neg hl, if_neg hs]
    congr 1
    have h1 : 1 ≤ s := Nat.one_le_iff_ne_zero.mpr hs
    refine chunksOfFuel_congr s m (l.drop s).length (l.drop s) ?_ le_rfl
    simp only [List.length_drop]
    omega

/-- Recursion principle following the chunking of a list by blocks of a
positive size `s`. -/
theorem chunksOf_rec_ind (s : Nat) (hs : 0 < s) (P : List Nat → Prop)
    (hnil : P []) (hcons : ∀ l, l ≠ [] → P (l.drop s) → P l) :
    ∀ l, P l := by
  have H : ∀ n l, List.length l ≤ n → P l := by
    intro n
    induction n with
    | zero =>
      intro l hl
      have hnl : l = [] := by
        cases l with
        | nil => rfl
        | cons x xs => simp at hl
      subst hnl
      exact hnil
    | succ m ihm =>
      intro l hl
      by_cases hc : l = []
      · subst hc; exact hnil
      · refine hcons l hc (ihm (l.drop s) ?_)
        have hp : 0 < l.length := List.length_pos.mpr hc
        simp only [List.length_drop]
        omega
  exact fun l => H l.length l le_rfl

/-- `ChunkData` from `src/storage/chunker.rs`: one chunk of payload with
its 0-based index, bytes, SHA-256 hex digest and size. -/
structure ChunkData where
  index : Nat
  data : List Nat
  hash : String
  size : Nat
deriving Repr, DecidableEq

/-- `chunk_data` from `src/storage/chunker.rs`, parameterised by the
external `sha2`/`hex` digest `shaHex`.  Rust's `data.chunks(chunk_size)`
asserts `chunk_size != 0` and panics otherwise; the panic is modelled as
`none`. -/
def chunk_data (shaHex : List Nat → String) (data : List Nat)
    (chunk_size : Nat) : Option (List ChunkData) :=
  if chunk_size = 0 then none
  else some ((chunksOf chunk_size data).enum.map
    (fun p => ⟨p.1, p.2, shaHex p.2, p.2.length⟩))

theorem length_chunksOf (s : Nat) (hs : 0 < s) (l : List Nat) :
    (chunksOf s l).length = (l.length + s - 1) / s := by
  refine chunksOf_rec_ind s hs
    (fun l => (chunksOf s l).length = (l.length + s - 1) / s) ?_ ?_ l
  · simp only [chunksOf_nil, List.length_nil, Nat.zero_add]
    exact (Nat.div_eq_of_lt (by omega)).symm
  · intro l hl ih
    rw [chunksOf_cons s l (by omega) hl]
    simp only [List.length_cons, ih, List.length_drop]
    have hlen : 0 < l.length := List.length_pos.mpr hl
    rcases le_or_lt l.length s with hle | hlt
    · have h1 : l.length - s = 0 := by omega
      rw [h1]
      have h2 : (0 + s - 1) / s = 0 := by
        apply Nat.div_eq_of_lt; omega
      rw [h2]
      have h3 : l.length + s - 1 = (l.length - 1) + s := by omega
      rw [h3, Nat.add_div_right _ hs]
      have h4 : (l.length - 1) / s = 0 := by
        apply Nat.div_eq_of_lt; omega
      omega
    · have h3 : l.length + s - 1 = (l.length - s + s - 1) + s := by omega
      rw [h3, Nat.add_div_right _ hs]

theorem flatten_chunksOf (s : Nat) (hs : 0 < s) (l : List Nat) :
    (chunksOf s l).flatten = l := by
  refine chunksOf_rec_ind s hs (fun l => (chunksOf s l).flatten = l) ?_ ?_ l
  · simp [chunksOf_nil]
  · intro l hl ih
    rw [chunksOf_cons s l (by omega) hl]
    simp [ih, List.take_append_drop]

theorem getElem_chunksOf (s : Nat) (hs : 0 < s) (l : List Nat) (i : Nat)
    (h : i < (chunksOf s l).length) :
    (chunksOf s l)[i] = (l.drop (i * s)).take s := by
  revert i h
  refine chunksOf_rec_ind s hs
    (fun l => ∀ i, (h : i < (chunksOf s l).length) →
      (chunksOf s l)[i] = (l.drop (i * s)).take s) ?_ ?_ l
  · intro i h
    simp [chunksOf_nil] at h
  · intro l hl ih i h
    revert h
    rw [chunksOf_cons s l (by omega) hl]
    intro h
    match i with
    | 0 => simp
    | Nat.succ j =>
      simp only [List.getElem_cons_succ]
      rw [ih j (by simpa using h)]
      rw [List.drop_drop]
      congr 2
      rw [Nat.succ_mul, Nat.add_comm]

theorem length_le_chunksOf (s : Nat) (hs : 0 < s) (l : List Nat) (i : Nat)
    (h : i < (chunksOf s l).length) : (chunksOf s l)[i].length ≤ s := by
  rw [getElem_chunksOf s hs l i h]
  simp only [List.length_take, List.length_drop]
  omega

theorem length_eq_chunksOf (s : Nat) (hs : 0 < s) (l : List Nat) (i : Nat)
    (h : i + 1 < (chunksOf s l).length) :
    (chunksOf s l)[i].length = s := by
  have hcount := length_chunksOf s hs l
  have hlt : i + 2 ≤ (l.length + s - 1) / s := by omega
  rw [Nat.le_div_iff_mul_le hs] at hlt
  have e1 : (i + 2) * s = i * s + 2 * s := by ring
  rw [getElem_chunksOf s hs l i (by omega)]
  simp only [List.length_take, List.length_drop]
  omega

/-- C3: Chunker partition law.  For every byte string `B` and every chunk
size `S > 0`, `chunk_data` succeeds and: the chunk count is `⌈|B|/S⌉`;
concatenating the chunk payloads in index order yields `B`; chunk `i`
carries index `i`, covers exactly bytes `[i*S, min((i+1)*S, |B|))`
(i.e. its payload is `(B.drop (i*S)).take S`), records its own size and
the digest of its payload; every chunk except possibly the last has
length exactly `S` and no chunk exceeds `S`; an empty input yields zero
chunks. -/
theorem chunk_data_partition (shaHex : List Nat → String) (B : List Nat)
    (S : Nat) (hS : 0 < S) :
    ∃ cs, chunk_data shaHex B S = some cs ∧
      cs.length = (B.length + S - 1) / S ∧
      (cs.map (fun c => c.data)).flatten = B ∧
      (∀ i, (h : i < cs.length) → cs[i].index = i ∧
        cs[i].data = (B.drop (i * S)).take S ∧
        cs[i].size = cs[i].data.length ∧
        cs[i].hash = shaHex cs[i].data) ∧
      (∀ i, (h : i + 1 < cs.length) → cs[i].data.length = S) ∧
      (∀ i, (h : i < cs.length) → cs[i].data.length ≤ S) ∧
      (B = [] → cs = []) := by
  refine ⟨(chunksOf S B).enum.map
    (fun p => ⟨p.1, p.2, shaHex p.2, p.2.length⟩), ?_, ?_, ?_, ?_, ?_, ?_, ?_⟩
  · unfold chunk_data
    simp [Nat.pos_iff_ne_zero.mp hS]
  · simp only [List.length_map, List.enum_length]
    exact length_chunksOf S hS B
  · rw [List.map_map]
    have e2 : ((fun c : ChunkData => c.data) ∘
        fun p : Nat × List Nat =>
          (⟨p.1, p.2, shaHex p.2, p.2.length⟩ : ChunkData)) = Prod.snd := rfl
    rw [e2, List.enum_map_snd]
    exact flatten_chunksOf S hS B
  · intro i h
    simp only [List.length_map, List.enum_length] at h
    refine ⟨?_, ?_, ?_, ?_⟩ <;>
      simp [List.getElem_map, List.getElem_enum, getElem_chunksOf S hS B i h]
  · intro i h
    simp only [List.length_map, List.enum_length] at h
    simp only [List.getElem_map, List.getElem_enum]
    exact length_eq_chunksOf S hS B i h
  · intro i h
    simp only [List.length_map, List.enum_length] at h
    simp only [List.getElem_map, List.getElem_enum]
    exact length_le_chunksOf S hS B i h
  · intro hB
    subst hB
    simp [chunksOf_nil]

/-- Witness for C3 at `B = [1,2,3,4,5]`, `S = 2`. -/
theorem chunk_data_partition_witness :
    0 < 2 ∧
    (∃ cs, chunk_data (fun x => "h") [1, 2, 3, 4, 5] 2 = some cs ∧
      cs.length = (([1, 2, 3, 4, 5] : List Nat).length + 2 - 1) / 2 ∧
      (cs.map (fun c => c.data)).flatten = [1, 2, 3, 4, 5] ∧
      (∀ i, (h : i < cs.length) → cs[i].index = i ∧
        cs[i].data = (([1, 2, 3, 4, 5] : List Nat).drop (i * 2)).take 2 ∧
        cs[i].size = cs[i].data.length ∧
        cs[i].hash = (fun x => "h") cs[i].data) ∧
      (∀ i, (h : i + 1 < cs.length) → cs[i].data.length = 2) ∧
      (∀ i, (h : i < cs.length) → cs[i].data.length ≤ 2) ∧
      (([1, 2, 3, 4, 5] : List Nat) = [] → cs = [])) :=
  ⟨by decide, chunk_data_partition (fun x => "h") [1, 2, 3, 4, 5] 2 (by decide)⟩

/-- C10: totality precondition of the chunker: `chunk_data` returns
normally exactly when `chunk_size > 0`; at `chunk_size = 0` it panics
(Rust `slice::chunks` asserts a non-zero size) for every input,
modelled as `none`. -/
theorem chunk_data_total_iff_pos_size (shaHex : List Nat → String)
    (data : List Nat) (chunk_size : Nat) :
    (chunk_data shaHex data chunk_size).isSome ↔ 0 < chunk_size := by
  unfold chunk_data
  split
  · simp_all
  · simp_all [Nat.pos_iff_ne_zero]

/-! ## email/metadata.rs -/

/-- Alphabet of the `base64` crate engine `URL_SAFE_NO_PAD`. -/
def b64Alphabet : List Char :=
  "ABCDEFGHIJKLMNOPQRSTUVWXYZabcdefghijklmnopqrstuvwxyz0123456789-_".toList

/-- Symbol for a 6-bit value. -/
def b64Alpha (n : Nat) : Char := b64Alphabet.getD n 'A'

/-- Model of `URL_SAFE_NO_PAD.encode`: each group of 3 bytes becomes 4
symbols, a trailing group of 2 bytes becomes 3 symbols, a trailing
single byte becomes 2 symbols, and no padding is emitted. -/
def b64EncodeGroups : List Nat → List Char
  | b0 :: b1 :: b2 :: rest =>
      b64Alpha (b0 / 4) :: b64Alpha ((b0 % 4) * 16 + b1 / 16) ::
      b64Alpha ((b1 % 16) * 4 + b2 / 64) :: b64Alpha (b2 % 64) ::
      b64EncodeGroups rest
  | [b0, b1] =>
      [b64Alpha (b0 / 4), b64Alpha ((b0 % 4) * 16 + b1 / 16),
       b64Alpha ((b1 % 16) * 4)]
  | [b0] => [b64Alpha (b0 / 4), b64Alpha ((b0 % 4) * 16)]
  | [] => []

/-- Value of a base64 symbol: its index in the alphabet, `none` for a
character outside the alphabet. -/
def b64Val (c : Char) : Option Nat := b64Alphabet.findIdx? (fun d => d == c)

/-- Model of `URL_SAFE_NO_PAD.decode` on unpadded input: groups of 4
symbols yield 3 bytes; a trailing group of 3 symbols yields 2 bytes and
of 2 symbols 1 byte (rejecting non-zero trailing bits); a trailing
single symbol or a symbol outside the alphabet is rejected. -/
def b64DecodeGroups : List Char → Option (List Nat)
  | c0 :: c1 :: c2 :: c3 :: rest =>
    match b64Val c0, b64Val c1, b64Val c2, b64Val c3, b64DecodeGroups rest with
    | some v0, some v1, some v2, some v3, some bs =>
        some ((v0 * 4 + v1 / 16) :: ((v1 % 16) * 16 + v2 / 4) ::
              ((v2 % 4) * 64 + v3) :: bs)
    | _, _, _, _, _ => none
  | [c0, c1, c2] =>
    match b64Val c0, b64Val c1, b64Val c2 with
    | some v0, some v1, some v2 =>
        if v2 % 4 = 0 then some [v0 * 4 + v1 / 16, (v1 % 16) * 16 + v2 / 4]
        else none
    | _, _, _ => none
  | [c0, c1] =>
    match b64Val c0, b64Val c1 with
    | some v0, some v1 =>
        if v1 % 16 = 0 then some [v0 * 4 + v1 / 16] else none
    | _, _ => none
  | [_] => none
  | [] => some []

theorem b64Val_b64Alpha : ∀ n, n < 64 → b64Val (b64Alpha n) = some n := by
  decide

theorem b64_roundtrip (bs : List Nat) (hb : ∀ b ∈ bs, b < 256) :
    b64DecodeGroups (b64EncodeGroups bs) = some bs := by
  induction bs using b64EncodeGroups.induct with
  | case1 b0 b1 b2 rest ih =>
    have h0 : b0 < 256 := hb _ (by simp)
    have h1 : b1 < 256 := hb _ (by simp)
    have h2 : b2 < 256 := hb _ (by simp)
    have ih2 := ih (fun b hbin => hb b (by simp [hbin]))
    rw [b64EncodeGroups, b64DecodeGroups,
      b64Val_b64Alpha _ (by omega), b64Val_b64Alpha _ (by omega),
      b64Val_b64Alpha _ (by omega), b64Val_b64Alpha _ (by omega), ih2]
    simp only [Option.some.injEq]
    refine List.cons_eq_cons.mpr ⟨by omega, ?_⟩
    refine List.cons_eq_cons.mpr ⟨by omega, ?_⟩
    refine List.cons_eq_cons.mpr ⟨by omega, rfl⟩
  | case2 b0 b1 =>
    have h0 : b0 < 256 := hb _ (by simp)
    have h1 : b1 < 256 := hb _ (by simp)
    rw [b64EncodeGroups, b64DecodeGroups,
      b64Val_b64Alpha _ (by omega), b64Val_b64Alpha _ (by omega),
      b64Val_b64Alpha _ (by omega)]
    simp only
    rw [if_pos (by omega)]
    simp only [Option.some.injEq]
    refine List.cons_eq_cons.mpr ⟨by omega, ?_⟩
    refine List.cons_eq_cons.mpr ⟨by omega, rfl⟩
  | case3 b0 =>
    have h0 : b0 < 256 := hb _ (by simp)
    rw [b64EncodeGroups, b64DecodeGroups,
      b64Val_b64Alpha _ (by omega), b64Val_b64Alpha _ (by omega)]
    simp only
    rw [if_pos (by omega)]
    simp only [Option.some.injEq]
    refine List.cons_eq_cons.mpr ⟨by omega, rfl⟩
  | case4 =>
    rw [b64EncodeGroups, b64DecodeGroups]

/-- `ChunkMetadata` from `src/email/metadata.rs`: the manifest embedded
in a draft Subject header. -/
structure ChunkMetadata where
  v : Nat
  bucket : String
  key : String
  chunk_idx : Nat
  total_chunks : Nat
  object_id : String
  chunk_hash : String
  total_size : Nat
  content_type : String
deriving Repr, DecidableEq

/-- The literal `SUBJECT_PREFIX` from `src/email/metadata.rs`. -/
def SUBJECT_PREFIX : String := "OBJMAIL:"

/-- `ChunkMetadata::encode_subject`, parameterised by the serde JSON
serializer `jsonEnc` (an external crate): prefix then URL-safe
unpadded base64 of the JSON bytes. -/
def encode_subject (jsonEnc : ChunkMetadata → List Nat)
    (m : ChunkMetadata) : String :=
  SUBJECT_PREFIX ++ String.mk (b64EncodeGroups (jsonEnc m))

/-- `ChunkMetadata::decode_subject`, parameterised by the serde JSON
deserializer `jsonDec`: strip the prefix (error if absent), base64
decode (error if invalid), then deserialize. -/
def decode_subject (jsonDec : List Nat → Option ChunkMetadata)
    (subject : String) : Option ChunkMetadata :=
  if SUBJECT_PREFIX.toList.isPrefixOf subject.toList then
    match b64DecodeGroups (subject.toList.drop SUBJECT_PREFIX.toList.length) with
    | none => none
    | some json_bytes => jsonDec json_bytes
  else none

theorem decode_encode_subject (jsonEnc : ChunkMetadata → List Nat)
    (jsonDec : List Nat → Option ChunkMetadata) (m : ChunkMetadata)
    (hm : jsonDec (jsonEnc m) = some m)
    (hb : ∀ b ∈ jsonEnc m, b < 256) :
    decode_subject jsonDec (encode_subject jsonEnc m) = some m := by
  unfold decode_subject encode_subject
  have htl : (SUBJECT_PREFIX ++ String.mk (b64EncodeGroups (jsonEnc m))).toList
      = SUBJECT_PREFIX.toList ++ b64EncodeGroups (jsonEnc m) := by
    simp [String.toList, String.data_append]
  rw [htl, if_pos (List.isPrefixOf_iff_prefix.mpr (List.prefix_append _ _)),
    List.drop_left, b64_roundtrip _ hb]
  exact hm

/-- C4: ChunkSubject round-trip and prefix rejection.  For a manifest
`m` on which the serde JSON codec round-trips (which serde guarantees
for this plain struct), `decode_subject (encode_subject m) = some m`;
and every input string that does not start with `OBJMAIL:` is rejected
by the decoder. -/
theorem subject_roundtrip_and_reject (jsonEnc : ChunkMetadata → List Nat)
    (jsonDec : List Nat → Option ChunkMetadata) (m : ChunkMetadata)
    (hm : jsonDec (jsonEnc m) = some m)
    (hb : ∀ b ∈ jsonEnc m, b < 256) :
    decode_subject jsonDec (encode_subject jsonEnc m) = some m ∧
    ∀ s : String, ¬ (SUBJECT_PREFIX.toList.isPrefixOf s.toList) →
      decode_subject jsonDec s = none := by
  refine ⟨decode_encode_subject jsonEnc jsonDec m hm hb, ?_⟩
  intro s hs
  unfold decode_subject
  rw [if_neg hs]

/-- A concrete manifest used to instantiate the codec parameters. -/
def toyMeta : ChunkMetadata :=
  ⟨1, "b", "k", 0, 1, "o", "h", 0, "c"⟩

/-- Witness for C4: instantiate the serde parameters with a codec that
is correct at `toyMeta` and apply the round-trip theorem there. -/
theorem subject_roundtrip_and_reject_witness :
    ((fun bs => if bs = [65] then some toyMeta else none)
        ((fun m : ChunkMetadata => [65]) toyMeta) = some toyMeta) ∧
    (∀ b ∈ (fun m : ChunkMetadata => [65]) toyMeta, b < 256) ∧
    (decode_subject (fun bs => if bs = [65] then some toyMeta else none)
        (encode_subject (fun m : ChunkMetadata => [65]) toyMeta) = some toyMeta ∧
      ∀ s : String, ¬ (SUBJECT_PREFIX.toList.isPrefixOf s.toList) →
        decode_subject (fun bs => if bs = [65] then some toyMeta else none)
          s = none) :=
  ⟨by decide, by decide,
    subject_roundtrip_and_reject (fun m => [65])
      (fun bs => if bs = [65] then some toyMeta else none) toyMeta
      (by decide) (by decide)⟩

/-- A manifest whose schema version is 2 (not 1). -/
def metaV2 : ChunkMetadata :=
  ⟨2, "b", "k", 0, 1, "o", "h", 0, "c"⟩

/-- The serde JSON document of `metaV2`, as bytes (fields in
declaration order, version field equal to 2). -/
def metaV2Json : List Nat :=
  [123, 34, 118, 34, 58, 50, 44, 34, 98, 117, 99, 107, 101, 116, 34, 58,
   34, 98, 34, 44, 34, 107, 101, 121, 34, 58, 34, 107, 34, 44, 34, 99,
   104, 117, 110, 107, 95, 105, 100, 120, 34, 58, 48, 44, 34, 116, 111,
   116, 97, 108, 95, 99, 104, 117, 110, 107, 115, 34, 58, 49, 44, 34,
   111, 98, 106, 101, 99, 116, 95, 105, 100, 34, 58, 34, 111, 34, 44,
   34, 99, 104, 117, 110, 107, 95, 104, 97, 115, 104, 34, 58, 34, 104,
   34, 44, 34, 116, 111, 116, 97, 108, 95, 115, 105, 122, 101, 34, 58,
   48, 44, 34, 99, 111, 110, 116, 101, 110, 116, 95, 116, 121, 112, 101,
   34, 58, 34, 99, 34, 125]

/-- serde_json deserialization evaluated at the document of `metaV2`:
serde accepts any `u32` in the `v` field, so this document deserializes
to `metaV2`. -/
def serdeDecV2 : List Nat → Option ChunkMetadata :=
  fun bs => if bs = metaV2Json then some metaV2 else none

/-- C5 counterexample: a syntactically valid `OBJMAIL:` subject whose
JSON manifest carries schema version `v = 2` is decoded by
`decode_subject` to the manifest itself — a silent success, not an
UnsupportedVersion error.  `decode_subject` contains no version check
at all. -/
theorem decode_subject_accepts_v2 :
    decode_subject serdeDecV2
      (encode_subject (fun _ => metaV2Json) metaV2) = some metaV2 ∧
    metaV2.v = 2 := by
  constructor
  · decide
  · rfl

/-- C5 amended: for every syntactically valid `OBJMAIL:` subject whose
JSON manifest carries a schema version `v ≠ 1`, `decode_subject`
succeeds and returns the manifest unchanged (with its `v` field
preserved); no UnsupportedVersion path exists in the decoder. -/
theorem decode_subject_no_version_gate (jsonEnc : ChunkMetadata → List Nat)
    (jsonDec : List Nat → Option ChunkMetadata) (m : ChunkMetadata)
    (hm : jsonDec (jsonEnc m) = some m)
    (hb : ∀ b ∈ jsonEnc m, b < 256)
    (hv : m.v ≠ 1) :
    decode_subject jsonDec (encode_subject jsonEnc m) = some m ∧
    (decode_subject jsonDec (encode_subject jsonEnc m)).map
      (fun r => r.v) = some m.v := by
  have h := decode_encode_subject jsonEnc jsonDec m hm hb
  exact ⟨h, by simp [h]⟩

/-- Witness for the amended C5 at `metaV2`. -/
theorem decode_subject_no_version_gate_witness :
    (serdeDecV2 ((fun _ : ChunkMetadata => metaV2Json) metaV2) = some metaV2) ∧
    (∀ b ∈ (fun _ : ChunkMetadata => metaV2Json) metaV2, b < 256) ∧
    (metaV2.v ≠ 1) ∧
    (decode_subject serdeDecV2
        (encode_subject (fun _ : ChunkMetadata => metaV2Json) metaV2) =
      some metaV2 ∧
    (decode_subject serdeDecV2
        (encode_subject (fun _ : ChunkMetadata => metaV2Json) metaV2)).map
      (fun r => r.v) = some metaV2.v) :=
  ⟨by decide, by decide, by decide,
    decode_subject_no_version_gate (fun _ => metaV2Json) serdeDecV2 metaV2
      (by decide) (by decide) (by decide)⟩

/-! ## storage/hasher.rs and the hex crate -/

/-- Lowercase hex digit for a value below 16. -/
def hexDigit (n : Nat) : Char := "0123456789abcdef".toList.getD n '0'

/-- Model of `hex::encode`: two lowercase hex digits per byte. -/
def hexEncode (bs : List Nat) : String :=
  String.mk ((bs.map (fun b => [hexDigit (b / 16), hexDigit (b % 16)])).flatten)

/-- `HashResult` from `src/storage/hasher.rs`. -/
structure HashResult where
  md5 : String
  sha256 : String
deriving Repr, DecidableEq

/-- `compute_hashes` from `src/storage/hasher.rs`, parameterised by the
external digest primitives `md5` and `sha256` (16- and 32-byte
digests). -/
def compute_hashes (md5 sha256 : List Nat → List Nat)
    (data : List Nat) : HashResult :=
  { md5 := hexEncode (md5 data), sha256 := hexEncode (sha256 data) }

/-! ## s3/auth.rs -/

/-- `S3Config` from `src/config.rs` (the fields the verifier reads). -/
structure S3Config where
  access_key_id : String
  secret_access_key : String
  region : String
deriving Repr, DecidableEq

/-- The `S3Error` variants produced by `auth_middleware`. -/
inductive S3Error where
  | InternalError (msg : String)
  | AccessDenied (msg : String)
  | SignatureDoesNotMatch (msg : String)
deriving Repr, DecidableEq

/-- `AuthInfo` from `src/s3/auth.rs`. -/
structure AuthInfo where
  access_key_id : String
  date : String
  region : String
  signed_headers : List String
  signature : String
deriving Repr, DecidableEq

/-- Model of Rust `str::strip_prefix`: remove `p` from the front of `s`
if present. -/
def strip_string (p s : String) : Option String :=
  if p.toList.isPrefixOf s.toList then
    some (String.mk (s.toList.drop p.toList.length))
  else none

/-- Split `l` at the first occurrence of `c`: the part before it and,
when found, the remainder after it. -/
def breakAtChar (c : Char) : List Char → (List Char × Option (List Char))
  | [] => ([], none)
  | x :: xs =>
    if x = c then ([], some xs)
    else
      let r := breakAtChar c xs
      (x :: r.1, r.2)

/-- Model of Rust `str::splitn(n, c)`: at most `n` pieces, the last
piece keeping the rest of the string verbatim. -/
def splitnChar : Nat → Char → List Char → List (List Char)
  | 0, _, _ => []
  | 1, _, s => [s]
  | n + 2, c, s =>
    match breakAtChar c s with
    | (pre, none) => [pre]
    | (pre, some rest) => pre :: splitnChar (n + 1) c rest

/-- Find the first occurrence of the separator sequence `sep` in `l`:
the part before it and the remainder after it. -/
def findSeqSplit (sep : List Char) : List Char → Option (List Char × List Char)
  | [] => if sep.isPrefixOf ([] : List Char) then some ([], []) else none
  | x :: xs =>
    if sep.isPrefixOf (x :: xs) then some ([], (x :: xs).drop sep.length)
    else (findSeqSplit sep xs).map (fun pr => (x :: pr.1, pr.2))

theorem findSeqSplit_length (sep : List Char) (l : List Char)
    (pr : List Char × List Char) (hsep : sep ≠ [])
    (h : findSeqSplit sep l = some pr) : pr.2.length < l.length := by
  induction l generalizing pr with
  | nil =>
    cases sep with
    | nil => exact absurd rfl hsep
    | cons s ss => simp [findSeqSplit, List.isPrefixOf] at h
  | cons x xs ih =>
    rw [findSeqSplit] at h
    by_cases hp : sep.isPrefixOf (x :: xs)
    · rw [if_pos hp] at h
      have hlen : 1 ≤ sep.length := by
        cases sep with
        | nil => exact absurd rfl hsep
        | cons s ss => simp
      cases h
      simp only [List.length_drop, List.length_cons]
      omega
    · rw [if_neg hp] at h
      cases hfx : findSeqSplit sep xs with
      | none => rw [hfx] at h; exact Option.noConfusion h
      | some q =>
        rw [hfx] at h
        have h2 : some (x :: q.1, q.2) = some pr := h
        cases h2
        have := ih q hfx
        simp only [List.length_cons]
        omega

/-- Fuel-driven worker for `splitOnSeq`; `fuel ≥ l.length` suffices for
a non-empty separator, since each found separator consumes at least one
character. -/
def splitOnSeqFuel : Nat → List Char → List Char → List (List Char)
  | 0, _, l => [l]
  | f + 1, sep, l =>
    match findSeqSplit sep l with
    | none => [l]
    | some pr => pr.1 :: splitOnSeqFuel f sep pr.2

/-- Model of Rust `str::split` on a non-empty separator string (also
used, with a one-character separator, for `str::split(char)`). -/
def splitOnSeq (sep : List Char) (l : List Char) : List (List Char) :=
  splitOnSeqFuel (l.length + 1) sep l

/-- ASCII whitespace (the characters relevant to header values). -/
def isAsciiWhite (c : Char) : Bool :=
  c == ' ' || c == '\t' || c == '\n' || c == '\r'

/-- Model of Rust `str::trim` (restricted to ASCII whitespace). -/
def rustTrim (s : String) : String :=
  String.mk (((s.toList.dropWhile isAsciiWhite).reverse.dropWhile
    isAsciiWhite).reverse)

/-- The scan over the comma-separated parts of the Authorization header
in `parse_authorization`: each `Credential=`/`SignedHeaders=`/
`Signature=` tag assigns the corresponding slot (a later occurrence
overwrites an earlier one, as in the source's loop). -/
def authFields (rest : String) : Option String × Option String × Option String :=
  ((splitOnSeq ", ".toList rest.toList).map (fun cs => String.mk cs)).foldl
    (fun acc part =>
      let part := rustTrim part
      match strip_string "Credential=" part with
      | some val => (some val, acc.2.1, acc.2.2)
      | none =>
        match strip_string "SignedHeaders=" part with
        | some val => (acc.1, some val, acc.2.2)
        | none =>
          match strip_string "Signature=" part with
          | some val => (acc.1, acc.2.1, some val)
          | none => acc)
    (none, none, none)

/-- `parse_authorization` from `src/s3/auth.rs`. -/
def parse_authorization (header : String) : Option AuthInfo :=
  match strip_string "AWS4-HMAC-SHA256 " header with
  | none => none
  | some rest =>
    match authFields rest with
    | (some credential, some signed_headers, some signature) =>
      let parts := splitnChar 5 '/' credential.toList
      if parts.length < 5 then none
      else some
        { access_key_id := String.mk (parts.getD 0 [])
          date := String.mk (parts.getD 1 [])
          region := String.mk (parts.getD 2 [])
          signed_headers :=
            (splitOnSeq ";".toList signed_headers.toList).map
              (fun cs => String.mk cs)
          signature := signature }
    | _ => none

/-- Bytes of an (ASCII) string, modelling `str::as_bytes`. -/
def strBytes (s : String) : List Nat := s.toList.map Char.toNat

/-- `derive_signing_key` from `src/s3/auth.rs`, parameterised by the
external `hmac` crate primitive. -/
def derive_signing_key (hmacSha256 : List Nat → List Nat → List Nat)
    (secret date region : String) : List Nat :=
  let k_secret := strBytes ("AWS4" ++ secret)
  let k_date := hmacSha256 k_secret (strBytes date)
  let k_region := hmacSha256 k_date (strBytes region)
  let k_service := hmacSha256 k_region (strBytes "s3")
  hmacSha256 k_service (strBytes "aws4_request")

/-- Byte-lexicographic order on char lists (Rust `str` ordering for the
ASCII strings involved). -/
def charListLe : List Char → List Char → Bool
  | [], _ => true
  | _ :: _, [] => false
  | a :: as, b :: bs =>
    if a.toNat < b.toNat then true
    else if b.toNat < a.toNat then false
    else charListLe as bs

/-- First header value for a (lowercased) name. -/
def headerGet (hs : List (String × String)) (name : String) : Option String :=
  List.lookup name hs

/-- `build_canonical_request` from `src/s3/auth.rs`. -/
def build_canonical_request (method uri_path query_string : String)
    (headers : List (String × String)) (signed_headers : List String)
    (payload_hash : String) : String :=
  let canonical_uri := if uri_path = "" then "/" else uri_path
  let canonical_query :=
    if query_string = "" then ""
    else
      let params := (((splitOnSeq "&".toList query_string.toList).map
          (fun cs => String.mk cs)).filter (fun s => s ≠ "")).map
        (fun param =>
          let kv := splitnChar 2 '=' param.toList
          (String.mk (kv.getD 0 []), String.mk (kv.getD 1 [])))
      let sorted := params.mergeSort (fun a b => charListLe a.1.toList b.1.toList)
      String.intercalate "&" (sorted.map (fun kv => kv.1 ++ "=" ++ kv.2))
  let canonical_headers := String.join (signed_headers.map
    (fun name =>
      name ++ ":" ++ (((headerGet headers name).map rustTrim).getD "") ++ "\n"))
  let signed_headers_str := String.intercalate ";" signed_headers
  method ++ "\n" ++ canonical_uri ++ "\n" ++ canonical_query ++ "\n" ++
    canonical_headers ++ "\n" ++ signed_headers_str ++ "\n" ++ payload_hash

/-- The request data `auth_middleware` reads: header map (lowercased
names, as axum provides them), method, URI path and query. -/
structure AuthRequest where
  headers : List (String × String)
  method : String
  path : String
  query : String
deriving Repr, DecidableEq

/-- The `x-amz-date` (else `Date`) header value, else the empty
string. -/
def amzDateOf (req : AuthRequest) : String :=
  ((headerGet req.headers "x-amz-date").orElse
    (fun _ => headerGet req.headers "date")).getD ""

/-- `auth_middleware` from `src/s3/auth.rs`, parameterised by the
external chrono timestamp parser `parseTs` (seconds since epoch for a
`YYYYMMDDTHHMMSSZ` string), the server clock `now` (seconds), and the
`hmac`/`sha2` primitives.  `Except.ok ()` models passing the request to
the inner service. -/
def auth_middleware (config : S3Config) (parseTs : String → Option Int)
    (now : Int) (hmacSha256 : List Nat → List Nat → List Nat)
    (sha256Hex : List Nat → String) (req : AuthRequest) :
    Except S3Error Unit :=
  let auth_header := (headerGet req.headers "authorization").getD ""
  if auth_header = "" then Except.ok ()
  else
    match parse_authorization auth_header with
    | none =>
      Except.error (S3Error.AccessDenied "Invalid Authorization header format")
    | some auth_info =>
      if auth_info.access_key_id ≠ config.access_key_id then
        Except.error (S3Error.AccessDenied
          "The AWS Access Key Id you provided does not exist in our records")
      else
        let amz_date := amzDateOf req
        let skew_reject :=
          if amz_date ≠ "" then
            match parseTs amz_date with
            | some request_time => decide ((now - request_time).natAbs > 900)
            | none => false
          else false
        if skew_reject then
          Except.error (S3Error.AccessDenied "Request timestamp is too skewed")
        else
          let payload_hash :=
            (headerGet req.headers "x-amz-content-sha256").getD "UNSIGNED-PAYLOAD"
          let canonical_request := build_canonical_request req.method req.path
            req.query req.headers auth_info.signed_headers payload_hash
          let canonical_request_hash := sha256Hex (strBytes canonical_request)
          let credential_scope :=
            auth_info.date ++ "/" ++ auth_info.region ++ "/s3/aws4_request"
          let string_to_sign := "AWS4-HMAC-SHA256\n" ++ amz_date ++ "\n" ++
            credential_scope ++ "\n" ++ canonical_request_hash
          let signing_key := derive_signing_key hmacSha256
            config.secret_access_key auth_info.date auth_info.region
          let computed_signature :=
            hexEncode (hmacSha256 signing_key (strBytes string_to_sign))
          if computed_signature ≠ auth_info.signature then
            Except.error (S3Error.SignatureDoesNotMatch
              "The request signature we calculated does not match the signature you provided")
          else Except.ok ()

theorem auth_middleware_reduce (config : S3Config)
    (parseTs : String → Option Int) (now : Int)
    (hmacSha256 : List Nat → List Nat → List Nat)
    (sha256Hex : List Nat → String) (req : AuthRequest) (info : AuthInfo)
    (t : Int)
    (hauth : ¬ ((headerGet req.headers "authorization").getD "" = ""))
    (hparse : parse_authorization
      ((headerGet req.headers "authorization").getD "") = some info)
    (hkey : info.access_key_id = config.access_key_id)
    (hne : amzDateOf req ≠ "")
    (hts : parseTs (amzDateOf req) = some t) :
    auth_middleware config parseTs now hmacSha256 sha256Hex req =
      if 900 < (now - t).natAbs then
        Except.error (S3Error.AccessDenied "Request timestamp is too skewed")
      else
        let payload_hash :=
          (headerGet req.headers "x-amz-content-sha256").getD "UNSIGNED-PAYLOAD"
        let canonical_request := build_canonical_request req.method req.path
          req.query req.headers info.signed_headers payload_hash
        let canonical_request_hash := sha256Hex (strBytes canonical_request)
        let credential_scope :=
          info.date ++ "/" ++ info.region ++ "/s3/aws4_request"
        let string_to_sign := "AWS4-HMAC-SHA256\n" ++ amzDateOf req ++ "\n" ++
          credential_scope ++ "\n" ++ canonical_request_hash
        let signing_key := derive_signing_key hmacSha256
          config.secret_access_key info.date info.region
        let computed_signature :=
          hexEncode (hmacSha256 signing_key (strBytes string_to_sign))
        if computed_signature ≠ info.signature then
          Except.error (S3Error.SignatureDoesNotMatch
            "The request signature we calculated does not match the signature you provided")
        else Except.ok () := by
  unfold auth_middleware
  rw [if_neg hauth, hparse]
  simp only [hkey, ne_eq, not_true_eq_false, if_false, ite_false, if_pos hne,
    hts, ite_not]
  by_cases hskew : 900 < (now - t).natAbs
  · simp [hskew]
  · simp [hskew]

/-- C6: SigV4 clock-skew rule.  For every authenticated request (with a
well-formed Authorization header and the configured access key)
carrying a parseable `x-amz-date` (else `Date`) timestamp `t`, the
verifier rejects with the skew error exactly when the absolute
difference between server time and `t` exceeds 900 seconds; at a
difference of at most 900 seconds it never rejects on skew grounds. -/
theorem auth_middleware_skew (config : S3Config)
    (parseTs : String → Option Int) (now : Int)
    (hmacSha256 : List Nat → List Nat → List Nat)
    (sha256Hex : List Nat → String) (req : AuthRequest) (info : AuthInfo)
    (t : Int)
    (hauth : ¬ ((headerGet req.headers "authorization").getD "" = ""))
    (hparse : parse_authorization
      ((headerGet req.headers "authorization").getD "") = some info)
    (hkey : info.access_key_id = config.access_key_id)
    (hne : amzDateOf req ≠ "")
    (hts : parseTs (amzDateOf req) = some t) :
    (auth_middleware config parseTs now hmacSha256 sha256Hex req =
        Except.error (S3Error.AccessDenied "Request timestamp is too skewed"))
      ↔ 900 < (now - t).natAbs := by
  rw [auth_middleware_reduce config parseTs now hmacSha256 sha256Hex req
    info t hauth hparse hkey hne hts]
  by_cases hskew : 900 < (now - t).natAbs
  · simp [hskew]
  · rw [if_neg hskew]
    dsimp only
    constructor
    · intro hres
      split at hres <;> simp_all
    · intro hcon
      exact absurd hcon hskew

/-- Concrete data for the C6 witness. -/
def c6auth : String :=
  "AWS4-HMAC-SHA256 Credential=AKID/d/r/s3/aws4_request, SignedHeaders=host, Signature=s"

/-- Concrete request for the C6 witness. -/
def c6req : AuthRequest :=
  ⟨[("authorization", c6auth), ("x-amz-date", "20260101T000000Z")], "GET", "/", ""⟩

/-- Parsed auth info of `c6auth`. -/
def c6info : AuthInfo := ⟨"AKID", "d", "r", ["host"], "s"⟩

/-- Config for the C6 witness. -/
def c6config : S3Config := ⟨"AKID", "sk", "us"⟩

/-- Witness for C6 at a request whose timestamp equals server time. -/
theorem auth_middleware_skew_witness :
    (¬ ((headerGet c6req.headers "authorization").getD "" = "")) ∧
    (parse_authorization ((headerGet c6req.headers "authorization").getD "")
      = some c6info) ∧
    (c6info.access_key_id = c6config.access_key_id) ∧
    (amzDateOf c6req ≠ "") ∧
    ((fun _ : String => some (100 : Int)) (amzDateOf c6req) = some 100) ∧
    ((auth_middleware c6config (fun _ => some (100 : Int)) 100
        (fun _ _ => []) (fun _ => "e3") c6req =
        Except.error (S3Error.AccessDenied "Request timestamp is too skewed"))
      ↔ 900 < ((100 : Int) - 100).natAbs) :=
  ⟨by decide, by decide, by decide, by decide, rfl,
    auth_middleware_skew c6config (fun _ => some (100 : Int)) 100
      (fun _ _ => []) (fun _ => "e3") c6req c6info 100
      (by decide) (by decide) (by decide) (by decide) rfl⟩

theorem count_of_breakAtChar_none (c : Char) : ∀ l : List Char,
    (breakAtChar c l).2 = none → l.count c = 0 := by
  intro l
  induction l with
  | nil => intro h; rfl
  | cons x xs ih =>
    intro h
    rw [breakAtChar] at h
    by_cases hx : x = c
    · rw [if_pos hx] at h
      exact Option.noConfusion h
    · rw [if_neg hx] at h
      simp only at h
      rw [List.count_cons, ih h]
      have hbx : (x == c) = false := beq_eq_false_iff_ne.mpr hx
      rw [hbx]
      simp

theorem count_of_breakAtChar_some (c : Char) : ∀ (l pre rest : List Char),
    breakAtChar c l = (pre, some rest) → l.count c = rest.count c + 1 := by
  intro l
  induction l with
  | nil =>
    intro pre rest h
    rw [breakAtChar] at h
    exact Option.noConfusion (congrArg Prod.snd h)
  | cons x xs ih =>
    intro pre rest h
    rw [breakAtChar] at h
    by_cases hx : x = c
    · rw [if_pos hx] at h
      injection h with h1 h2
      injection h2 with h2
      subst h2
      subst hx
      rw [List.count_cons]
      simp
    · rw [if_neg hx] at h
      injection h with h1 h2
      have hxs : breakAtChar c xs = ((breakAtChar c xs).1, some rest) := by
        rw [← h2]
      have := ih (breakAtChar c xs).1 rest hxs
      rw [List.count_cons, this]
      have hbx : (x == c) = false := beq_eq_false_iff_ne.mpr hx
      rw [hbx]
      simp

theorem length_splitnChar (c : Char) : ∀ (n : Nat) (l : List Char),
    (splitnChar (n + 1) c l).length = min (n + 1) (l.count c + 1) := by
  intro n
  induction n with
  | zero =>
    intro l
    simp only [splitnChar, List.length_cons, List.length_nil]
    omega
  | succ m ih =>
    intro l
    rw [show m + 1 + 1 = m + 2 from rfl, splitnChar]
    cases hb : breakAtChar c l with
    | mk pre orest =>
      cases orest with
      | none =>
        have h0 := count_of_breakAtChar_none c l (by rw [hb])
        show ([pre] : List (List Char)).length = _
        simp only [List.length_cons, List.length_nil, h0]
        omega
      | some rest =>
        have h1 := count_of_breakAtChar_some c l pre rest hb
        show (pre :: splitnChar (m + 1) c rest).length = _
        simp only [List.length_cons]
        rw [ih rest, h1]
        omega

/-- C7 counterexample: a credential path with six slash-separated
segments is parsed successfully (Rust `splitn(5, '/')` folds everything
after the fourth slash into the fifth piece), so the verifier does not
reject it as malformed — it proceeds and fails on the access key
instead. -/
theorem parse_authorization_six_segments :
    parse_authorization
      "AWS4-HMAC-SHA256 Credential=k/d/r/s3/aws4_request/x, SignedHeaders=host, Signature=s"
      = some ⟨"k", "d", "r", ["host"], "s"⟩ ∧
    auth_middleware ⟨"AKID", "sk", "us"⟩ (fun _ => none) 0 (fun _ _ => [])
      (fun _ => "")
      ⟨[("authorization",
        "AWS4-HMAC-SHA256 Credential=k/d/r/s3/aws4_request/x, SignedHeaders=host, Signature=s")],
        "GET", "/", ""⟩
      = Except.error (S3Error.AccessDenied
        "The AWS Access Key Id you provided does not exist in our records") := by
  constructor
  · decide
  · rfl

/-- C7 amended: the verifier rejects the Authorization header as
malformed exactly when the `AWS4-HMAC-SHA256 ` prefix is absent, one of
the Credential/SignedHeaders/Signature fields is absent, or the
credential path has FEWER than five slash-separated segments; a path
with five or more segments is accepted (the code uses `splitn(5, '/')`
and only checks for fewer than five pieces). -/
theorem parse_authorization_malformed_rule :
    (∀ header, strip_string "AWS4-HMAC-SHA256 " header = none →
      parse_authorization header = none) ∧
    (∀ header rest, strip_string "AWS4-HMAC-SHA256 " header = some rest →
      ((authFields rest).1 = none ∨ (authFields rest).2.1 = none ∨
        (authFields rest).2.2 = none) →
      parse_authorization header = none) ∧
    (∀ header rest c sh sg,
      strip_string "AWS4-HMAC-SHA256 " header = some rest →
      authFields rest = (some c, some sh, some sg) →
      (parse_authorization header = none ↔ c.toList.count '/' + 1 < 5)) := by
  refine ⟨?_, ?_, ?_⟩
  · intro header h
    unfold parse_authorization
    rw [h]
  · intro header rest hstrip hmiss
    unfold parse_authorization
    rw [hstrip]
    rcases hf : authFields rest with ⟨o1, o2, o3⟩
    rw [hf] at hmiss
    cases o1 <;> cases o2 <;> cases o3 <;> simp_all
  · intro header rest c sh sg hstrip hf
    have hlen5 : (splitnChar 5 '/' c.toList).length
        = min 5 (List.count '/' c.toList + 1) := length_splitnChar '/' 4 c.toList
    by_cases hc : List.count '/' c.toList + 1 < 5
    · simp only [parse_authorization, hstrip, hf]
      rw [if_pos (by omega)]
      exact iff_of_true rfl hc
    · simp only [parse_authorization, hstrip, hf]
      rw [if_neg (by omega)]
      exact iff_of_false (by simp) hc

/-- Witness for the amended C7 at a three-segment credential path. -/
theorem parse_authorization_malformed_rule_witness :
    (strip_string "AWS4-HMAC-SHA256 "
      "AWS4-HMAC-SHA256 Credential=a/b/c, SignedHeaders=h, Signature=s"
      = some "Credential=a/b/c, SignedHeaders=h, Signature=s") ∧
    (authFields "Credential=a/b/c, SignedHeaders=h, Signature=s"
      = (some "a/b/c", some "h", some "s")) ∧
    (parse_authorization
        "AWS4-HMAC-SHA256 Credential=a/b/c, SignedHeaders=h, Signature=s"
        = none ↔ ("a/b/c" : String).toList.count '/' + 1 < 5) :=
  ⟨by decide, by decide,
    parse_authorization_malformed_rule.2.2
      "AWS4-HMAC-SHA256 Credential=a/b/c, SignedHeaders=h, Signature=s"
      "Credential=a/b/c, SignedHeaders=h, Signature=s" "a/b/c" "h" "s"
      (by decide) (by decide)⟩

/-! ## db entities and the pipeline state (storage/pipeline.rs) -/

/-- Decimal digit character. -/
def digitChar (n : Nat) : Char := "0123456789".toList.getD n '0'

/-- Fuel-driven decimal rendering worker. -/
def natToStrAux : Nat → Nat → List Char
  | 0, _ => []
  | f + 1, n =>
    if n < 10 then [digitChar n]
    else natToStrAux f (n / 10) ++ [digitChar (n % 10)]

/-- Decimal rendering of a natural number (model of `to_string` /
`format!` on ids, which are UUIDs in the source and fresh numerals
here). -/
def natToStr (n : Nat) : String := String.mk (natToStrAux (n + 1) n)

/-- `bucket::Model` (the fields the pipeline uses). -/
structure BucketModel where
  id : Nat
  name : String
  owner_id : String
  region : String
  created_at : Nat
deriving Repr, DecidableEq

/-- `object::Model`.  UUIDs are modelled as naturals drawn from a fresh
counter; timestamps as naturals. -/
structure ObjectModel where
  id : Nat
  bucket_id : Nat
  key : String
  size : Nat
  etag : String
  content_type : String
  metadata : Option String
  chunk_count : Nat
  created_at : Nat
  updated_at : Nat
deriving Repr, DecidableEq

/-- `chunk::Model`.  `chunk_index` is an `i32` in the schema and can go
negative, so it is an `Int` here; `draft_uid` is kept as the underlying
IMAP u32 value (the `u32 as i32` store and `i32 as u32` load in the
source are mutually inverse on 32-bit values). -/
structure ChunkModel where
  id : Nat
  object_id : Nat
  chunk_index : Int
  size : Nat
  hash : String
  draft_uid : Nat
  email_account_id : Nat
  status : String
  created_at : Nat
  updated_at : Nat
deriving Repr, DecidableEq

/-- The relational store. -/
structure DbState where
  buckets : List BucketModel
  objects : List ObjectModel
  chunks : List ChunkModel
deriving Repr, DecidableEq

/-- The IMAP drafts folder: `(uid, subject, payload)` per draft, plus
the monotone next-UID counter (IMAP UIDs are never reused). -/
structure EmailState where
  drafts : List (Nat × String × List Nat)
  nextUid : Nat
deriving Repr, DecidableEq

/-- `EmailProvider::create_draft`: APPEND a draft, return its UID (the
source recovers it by SELECT + `UID SEARCH` on the subject; the model
assigns the folder's next UID, which is what that recovery yields for
the single-writer pipeline). -/
def create_draft (e : EmailState) (subject : String) (payload : List Nat) :
    Nat × EmailState :=
  (e.nextUid, ⟨e.drafts ++ [(e.nextUid, subject, payload)], e.nextUid + 1⟩)

/-- `EmailProvider::get_draft`: fetch the attachment payload of a draft
by UID; `none` when no such draft exists. -/
def get_draft (e : EmailState) (uid : Nat) : Option (List Nat) :=
  (e.drafts.find? (fun d => d.1 == uid)).map (fun d => d.2.2)

/-- `EmailProvider::delete_draft`: STORE `\Deleted` + EXPUNGE. -/
def delete_draft (e : EmailState) (uid : Nat) : EmailState :=
  ⟨e.drafts.filter (fun d => d.1 != uid), e.nextUid⟩

/-- Whole mutable world of the pipeline: database, mailbox, and the
fresh-UUID counter. -/
structure PipelineState where
  db : DbState
  email : EmailState
  fresh : Nat
deriving Repr, DecidableEq

/-- `StorageConfig` (the field the pipeline reads). -/
structure StorageConfig where
  chunk_size_mb : Nat
deriving Repr, DecidableEq

/-- `AppConfig` (the part the pipeline reads). -/
structure AppConfig where
  storage : StorageConfig
deriving Repr, DecidableEq

/-- `AppConfig::chunk_size_bytes`. -/
def AppConfig.chunk_size_bytes (c : AppConfig) : Nat :=
  c.storage.chunk_size_mb * 1024 * 1024

/-- Two's-complement reinterpretation of the low 32 bits of a natural,
modelling Rust `as i32`. -/
def i32ofNat (n : Nat) : Int :=
  let m := n % 4294967296
  if m < 2147483648 then (m : Int) else (m : Int) - 4294967296

/-- Low 32 bits of an `i32` value, as a natural. -/
def u32ofI32 (x : Int) : Nat := (x % 4294967296).toNat

/-- Bitwise XOR of two `i32` values. -/
def i32xor (a b : Int) : Int := i32ofNat (Nat.xor (u32ofI32 a) (u32ofI32 b))

/-- Rust `i32::abs`: at `i32::MIN` the true absolute value is not
representable — debug builds panic and release builds wrap back to
`i32::MIN` (a negative index either way), modelled as `none`. -/
def i32abs (x : Int) : Option Int :=
  if x = -2147483648 then none else some (x.natAbs : Int)

/-- The synthetic chunk index computed in `StoragePipeline::delete` when
re-parenting a chunk to the recycling object:
`((nanos as i32) ^ (draft_uid as i32)).abs()`. -/
def unique_index (nanos : Nat) (draft_uid : Nat) : Option Int :=
  i32abs (i32xor (i32ofNat nanos) (i32ofNat draft_uid))

/-- The dedup/recycling usage query of `StoragePipeline::delete`: count
of chunks with the same hash, status `active`, and a different
object id. -/
def usage_count (chunks : List ChunkModel) (hash : String)
    (object_id : Nat) : Nat :=
  (chunks.filter (fun c =>
    c.hash == hash && c.status == "active" && c.object_id != object_id)).length

/-- `StoragePipeline::get_or_create_recycling_object`: lazily create the
`recycling-bin` bucket and the `free-chunks-<account>` object. -/
def get_or_create_recycling_object (st : PipelineState)
    (email_account_id : Nat) (now : Nat) : PipelineState × ObjectModel :=
  let bucket_name := "recycling-bin"
  let object_key := "free-chunks-" ++ natToStr email_account_id
  let (st1, bucket_id) :=
    match st.db.buckets.find? (fun b => b.name == bucket_name) with
    | some b => (st, b.id)
    | none =>
      let b : BucketModel :=
        { id := st.fresh, name := bucket_name, owner_id := "system",
          region := "local", created_at := now }
      ({ st with
          db := { st.db with buckets := st.db.buckets ++ [b] },
          fresh := st.fresh + 1 }, b.id)
  match st1.db.objects.find?
      (fun o => o.bucket_id == bucket_id && o.key == object_key) with
  | some o => (st1, o)
  | none =>
    let o : ObjectModel :=
      { id := st1.fresh, bucket_id := bucket_id, key := object_key,
        size := 0, etag := "", content_type := "application/octet-stream",
        metadata := none, chunk_count := 0, created_at := now,
        updated_at := now }
    ({ st1 with
        db := { st1.db with objects := st1.db.objects ++ [o] },
        fresh := st1.fresh + 1 }, o)

/-- The per-chunk loop of `StoragePipeline::delete`.  `nanosAt k` is the
high-resolution clock read at iteration `k`.  A `none` result models the
panic of `i32::abs` at `i32::MIN`. -/
def delete_chunks_loop (email_account_id object_id : Nat) (now : Nat)
    (nanosAt : Nat → Nat) :
    PipelineState → Nat → List ChunkModel → Option PipelineState
  | st, _, [] => some st
  | st, k, chunk_record :: rest =>
    let usage := usage_count st.db.chunks chunk_record.hash object_id
    if usage > 0 then
      let pr := get_or_create_recycling_object st email_account_id now
      match unique_index (nanosAt k) chunk_record.draft_uid with
      | none => none
      | some ui =>
        let st2 :=
          { pr.1 with
            db := { pr.1.db with
              chunks := pr.1.db.chunks.map (fun c =>
                if c.id == chunk_record.id then
                  { c with
                    object_id := pr.2.id
                    status := "free"
                    chunk_index := ui
                    updated_at := now }
                else c) } }
        delete_chunks_loop email_account_id object_id now nanosAt st2 (k + 1) rest
    else
      delete_chunks_loop email_account_id object_id now nanosAt st (k + 1) rest

/-- `StoragePipeline::delete`: snapshot the object's chunks, run the
recycling loop, then delete the object's chunk rows and the object
row.  `none` models the `i32::abs` panic. -/
def pipeline_delete (st : PipelineState) (email_account_id : Nat)
    (object_id : Nat) (now : Nat) (nanosAt : Nat → Nat) :
    Option PipelineState :=
  let chunks := st.db.chunks.filter (fun c => c.object_id == object_id)
  match delete_chunks_loop email_account_id object_id now nanosAt st 0 chunks with
  | none => none
  | some st1 =>
    let st2 :=
      { st1 with db := { st1.db with
          chunks := st1.db.chunks.filter (fun c => c.object_id != object_id) } }
    some { st2 with db := { st2.db with
        objects := st2.db.objects.filter (fun o => o.id != object_id) } }

/-- `StoragePipeline::delete_by_key`: look up the object at
`(bucket_id, key)` and delete it when present. -/
def pipeline_delete_by_key (st : PipelineState) (email_account_id : Nat)
    (bucket_id : Nat) (key : String) (now : Nat) (nanosAt : Nat → Nat) :
    Option PipelineState :=
  match st.db.objects.find?
      (fun o => o.bucket_id == bucket_id && o.key == key) with
  | some o => pipeline_delete st email_account_id o.id now nanosAt
  | none => some st

/-- The per-chunk loop of `StoragePipeline::upload`: dedup probe on an
active chunk with the same hash, else recycling probe on a free chunk
(append new draft, delete the free chunk's old draft and row), else a
plain append; then insert the active chunk row. -/
def upload_chunks (jsonEnc : ChunkMetadata → List Nat)
    (email_account_id object_id : Nat) (key content_type : String)
    (total_chunks total_size now : Nat) :
    PipelineState → List ChunkData → PipelineState
  | st, [] => st
  | st, cd :: rest =>
    let existing := st.db.chunks.find? (fun c =>
      c.hash == cd.hash && c.status == "active")
    let r :=
      match existing with
      | some ex => (ex.draft_uid, st)
      | none =>
        let free := st.db.chunks.find?
          (fun c : ChunkModel => c.status == "free")
        let meta : ChunkMetadata :=
          { v := 1
            bucket := key
            key := key
            chunk_idx := cd.index
            total_chunks := total_chunks
            object_id := natToStr object_id
            chunk_hash := cd.hash
            total_size := total_size
            content_type := content_type }
        let subject := encode_subject jsonEnc meta
        match free with
        | some f =>
          let nd := create_draft st.email subject cd.data
          let e2 := delete_draft nd.2 f.draft_uid
          (nd.1,
            { st with
              email := e2
              db := { st.db with
                chunks := st.db.chunks.filter (fun c => c.id != f.id) } })
        | none =>
          let nd := create_draft st.email subject cd.data
          (nd.1, { st with email := nd.2 })
    let row : ChunkModel :=
      { id := r.2.fresh
        object_id := object_id
        chunk_index := (cd.index : Int)
        size := cd.size
        hash := cd.hash
        draft_uid := r.1
        email_account_id := email_account_id
        status := "active"
        created_at := now
        updated_at := now }
    let st3 :=
      { r.2 with
        fresh := r.2.fresh + 1
        db := { r.2.db with chunks := r.2.db.chunks ++ [row] } }
    upload_chunks jsonEnc email_account_id object_id key content_type
      total_chunks total_size now st3 rest

/-- `StoragePipeline::upload`, parameterised by the external digests and
the serde serializer: hash, chunk, delete the overwritten object,
insert the object row, then run the chunk loop.  `none` models a panic
(zero chunk size, or `i32::abs` overflow inside the overwrite
delete). -/
def pipeline_upload (md5 sha256 : List Nat → List Nat)
    (jsonEnc : ChunkMetadata → List Nat) (config : AppConfig)
    (st : PipelineState) (email_account_id : Nat) (bucket_id : Nat)
    (key : String) (data : List Nat) (content_type : String)
    (metadata_json : Option String) (now : Nat) (nanosAt : Nat → Nat) :
    Option (PipelineState × ObjectModel) :=
  let hashes := compute_hashes md5 sha256 data
  let etag := "\"" ++ hashes.md5 ++ "\""
  let total_size := data.length
  match chunk_data (fun l => hexEncode (sha256 l)) data
      config.chunk_size_bytes with
  | none => none
  | some chunks =>
    let total_chunks := chunks.length
    match pipeline_delete_by_key st email_account_id bucket_id key now
        nanosAt with
    | none => none
    | some st1 =>
      let object_id := st1.fresh
      let obj : ObjectModel :=
        { id := object_id
          bucket_id := bucket_id
          key := key
          size := total_size
          etag := etag
          content_type := content_type
          metadata := metadata_json
          chunk_count := total_chunks
          created_at := now
          updated_at := now }
      let st2 :=
        { st1 with
          fresh := st1.fresh + 1
          db := { st1.db with objects := st1.db.objects ++ [obj] } }
      let st3 := upload_chunks jsonEnc email_account_id object_id key
        content_type total_chunks total_size now st2 chunks
      some (st3, obj)

/-- Insertion into a list of chunk rows sorted by ascending
`chunk_index`. -/
def insertByIndex (c : ChunkModel) : List ChunkModel → List ChunkModel
  | [] => [c]
  | x :: xs =>
    if c.chunk_index < x.chunk_index then c :: x :: xs
    else x :: insertByIndex c xs

/-- `order_by_asc(chunk::Column::ChunkIndex)`. -/
def sortByIndex (l : List ChunkModel) : List ChunkModel :=
  l.foldr insertByIndex []

/-- The fetch-and-concatenate loop of `StoragePipeline::download`. -/
def fetch_chunks (e : EmailState) : List ChunkModel → Except String (List Nat)
  | [] => Except.ok []
  | c :: rest =>
    match get_draft e c.draft_uid with
    | none => Except.error "Failed to fetch draft for chunk"
    | some d =>
      match fetch_chunks e rest with
      | Except.error msg => Except.error msg
      | Except.ok tail => Except.ok (d ++ tail)

/-- `StoragePipeline::download`: enumerate the object's chunk rows in
ascending index order, fetch each draft, concatenate. -/
def pipeline_download (st : PipelineState) (object_id : Nat) :
    Except String (List Nat) :=
  let chunks := sortByIndex
    (st.db.chunks.filter (fun c => c.object_id == object_id))
  if chunks.isEmpty then Except.error "No chunks found"
  else fetch_chunks st.email chunks

theorem getD_mem (l : List Char) (n : Nat) (d : Char) (hd : d ∈ l) :
    l.getD n d ∈ l := by
  unfold List.getD
  cases hq : l.get? n with
  | none => simpa using hd
  | some x =>
    have hx : x ∈ l := List.get?_mem hq
    simpa using hx

theorem hexDigit_mem (n : Nat) :
    hexDigit n ∈ "0123456789abcdef".toList := by
  unfold hexDigit
  exact getD_mem _ n '0' (by decide)

theorem hexEncode_lowercase (bs : List Nat) :
    ∀ ch ∈ (hexEncode bs).toList, ch ∈ "0123456789abcdef".toList := by
  intro ch hch
  unfold hexEncode at hch
  simp only [String.toList] at hch
  obtain ⟨l, hl, hchl⟩ := List.mem_flatten.mp hch
  obtain ⟨b, hb, rfl⟩ := List.mem_map.mp hl
  rcases List.mem_pair.mp hchl with rfl | rfl
  · exact hexDigit_mem _
  · exact hexDigit_mem _

/-- C8: ETag postcondition of upload.  Whenever upload returns an object
record, its etag is the lowercase hex MD5 digest of the entire
pre-chunked payload enclosed in ASCII double quotes (every character of
the hex encoding is a lowercase hex digit). -/
theorem upload_etag (md5 sha256 : List Nat → List Nat)
    (jsonEnc : ChunkMetadata → List Nat) (config : AppConfig)
    (st : PipelineState) (email_account_id bucket_id : Nat)
    (key : String) (data : List Nat) (content_type : String)
    (metadata_json : Option String) (now : Nat) (nanosAt : Nat → Nat)
    (st2 : PipelineState) (obj : ObjectModel)
    (h : pipeline_upload md5 sha256 jsonEnc config st email_account_id
      bucket_id key data content_type metadata_json now nanosAt
      = some (st2, obj)) :
    obj.etag = "\"" ++ hexEncode (md5 data) ++ "\"" ∧
    ∀ ch ∈ (hexEncode (md5 data)).toList, ch ∈ "0123456789abcdef".toList := by
  refine ⟨?_, hexEncode_lowercase (md5 data)⟩
  simp only [pipeline_upload] at h
  cases hcd : chunk_data (fun l => hexEncode (sha256 l)) data
      config.chunk_size_bytes with
  | none => rw [hcd] at h; exact Option.noConfusion h
  | some chunks =>
    rw [hcd] at h
    cases hdel : pipeline_delete_by_key st email_account_id bucket_id key
        now nanosAt with
    | none => rw [hdel] at h; exact Option.noConfusion h
    | some st1 =>
      rw [hdel] at h
      simp only [Option.some.injEq, Prod.mk.injEq] at h
      rw [← h.2]
      rfl

/-- Witness for C8: a concrete one-byte upload from the empty store. -/
theorem upload_etag_witness :
    ∃ r, pipeline_upload (fun l => l) (fun l => l) (fun _ => [])
        ⟨⟨18⟩⟩ ⟨⟨[], [], []⟩, ⟨[], 1⟩, 1⟩ 0 0 "k" [7] "t" none 0 (fun _ => 0)
        = some r ∧
      r.2.etag = "\"" ++ hexEncode ((fun l : List Nat => l) [7]) ++ "\"" ∧
      ∀ ch ∈ (hexEncode ((fun l : List Nat => l) [7])).toList,
        ch ∈ "0123456789abcdef".toList := by
  cases hr : pipeline_upload (fun l => l) (fun l => l) (fun _ => [])
      ⟨⟨18⟩⟩ ⟨⟨[], [], []⟩, ⟨[], 1⟩, 1⟩ 0 0 "k" [7] "t" none 0 (fun _ => 0) with
  | none => exact absurd hr (by decide)
  | some r =>
    exact ⟨r, rfl, upload_etag (fun l => l) (fun l => l) (fun _ => [])
      ⟨⟨18⟩⟩ ⟨⟨[], [], []⟩, ⟨[], 1⟩, 1⟩ 0 0 "k" [7] "t" none 0 (fun _ => 0)
      r.1 r.2 (by rw [hr])⟩

/-- The empty store: no rows, an empty mailbox, fresh counters at 1. -/
def demoState0 : PipelineState := ⟨⟨[], [], []⟩, ⟨[], 1⟩, 1⟩

/-- Upload with concrete parameters: identity digests (injective, so
content addressing behaves as with a collision-free hash), the default
18 MiB chunk size, account 0, bucket 0, clock 0. -/
def demoUpload (st : PipelineState) (key : String) (data : List Nat) :
    Option (PipelineState × ObjectModel) :=
  pipeline_upload (fun l => l) (fun l => l) (fun _ => []) ⟨⟨18⟩⟩ st 0 0 key
    data "t" none 0 (fun _ => 0)

/-- Upload `a := [7]`, upload `b := [7]` (dedup binds both to draft 1),
delete `a` (the code recycles its row because `b` still references the
hash), upload `c := [9]` (consumes the free slot: appends draft 2 and
EXPUNGES draft 1, which `b` still references), upload `d := [7]` (dedup
binds to the now-dead draft 1), then download `d`. -/
def roundtripScenario : Option (Except String (List Nat)) := do
  let r1 ← demoUpload demoState0 "a" [7]
  let r2 ← demoUpload r1.1 "b" [7]
  let st3 ← pipeline_delete r2.1 0 r1.2.id 0 (fun _ => 0)
  let r4 ← demoUpload st3 "c" [9]
  let r5 ← demoUpload r4.1 "d" [7]
  some (pipeline_download r5.1 r5.2.id)

/-- Upload the empty payload, then download the returned object id. -/
def emptyScenario : Option (Except String (List Nat)) := do
  let r ← demoUpload demoState0 "e" []
  some (pipeline_download r.1 r.2.id)

/-- C1: the storage-pipeline round-trip law fails on the code.  In the
reachable five-step scenario above, downloading the object returned by
the final `upload [7]` errors (its deduplicated chunk points at a draft
that the free-slot consumption expunged), instead of yielding `[7]`;
and for the empty payload, download of the freshly uploaded object
fails with `No chunks found` instead of yielding the empty string. -/
theorem roundtrip_violations :
    roundtripScenario = some (Except.error "Failed to fetch draft for chunk") ∧
    emptyScenario = some (Except.error "No chunks found") :=
  ⟨rfl, rfl⟩

/-- Upload `a := [7]`, upload `b := [7]` (shared hash, shared draft),
then delete `a`. -/
def deleteSharedScenario : Option PipelineState := do
  let r1 ← demoUpload demoState0 "a" [7]
  let r2 ← demoUpload r1.1 "b" [7]
  pipeline_delete r2.1 0 r1.2.id 0 (fun _ => 0)

/-- Upload `a := [7]` alone, then delete it (no other reference). -/
def deleteSoleScenario : Option PipelineState := do
  let r1 ← demoUpload demoState0 "a" [7]
  pipeline_delete r1.1 0 r1.2.id 0 (fun _ => 0)

/-- C2: the delete path recycles in the inverted direction.  When
another active chunk with the same hash exists (object `b`, id 3), the
deleted object's row is NOT simply removed: it is re-parented to the
RecyclingObject (id 6) with status `free`.  When no other reference
exists, the row is NOT re-parented: it is simply dropped (no free row
remains; the draft is left orphaned in the mailbox, draft uid 1). -/
theorem delete_recycling_inverted :
    (deleteSharedScenario.map (fun st =>
      st.db.chunks.map (fun c => (c.object_id, c.status))))
      = some [(6, "free"), (3, "active")] ∧
    (deleteSharedScenario.map (fun st =>
      st.db.objects.map (fun o => (o.id, o.key))))
      = some [(3, "b"), (6, "free-chunks-0")] ∧
    (deleteSoleScenario.map (fun st => st.db.chunks)) = some [] ∧
    (deleteSoleScenario.map (fun st => st.email.drafts.map (fun d => d.1)))
      = some [1] :=
  ⟨rfl, rfl, rfl, rfl⟩

/-- C9: the synthetic recycling index is NOT non-negative and
panic-free for every clock value.  When the low 32 bits of the clock
XOR the draft uid equal `i32::MIN` (here: nanos with low bits
`0x80000000`, uid 0), `i32::abs` overflows: debug builds panic and
release builds produce the negative index `-2^31` (modelled as `none`);
a whole `delete` run hits the same panic at clock value `0x80000001`
with draft uid 1.  Away from that single bit pattern the index is
non-negative (sample: nanos 0, uid 5 gives index 5). -/
theorem unique_index_overflow :
    unique_index 2147483648 0 = none ∧
    unique_index 0 5 = some 5 ∧
    (do
      let r1 ← demoUpload demoState0 "a" [7]
      let r2 ← demoUpload r1.1 "b" [7]
      pipeline_delete r2.1 0 r1.2.id 0 (fun _ => 2147483649))
      = none :=
  ⟨by decide, by decide, rfl⟩
